import Mathlib

/-!
Verification of the Hemisphere event check-in / lead-capture application.

The TypeScript sources are shallowly embedded: JavaScript strings are
modelled as lists of characters, timestamps (Date.now() and ISO dates) as
natural numbers counting milliseconds, and each HTTP route handler as a
pure function from the persistent JSON stores to a response paired with the
updated stores.  GET handlers perform no fs.writeFile call in the source,
so they return the store state unchanged.  A separate FileState model
captures the unreadable-file / corrupt-JSON behaviour of the raw
fs.readFile + JSON.parse + fs.writeFile layer.
-/

set_option maxRecDepth 4096

/-- Model of a JavaScript string: a list of characters. -/
abbrev Str := List Char

/-- Model of String.prototype.trim: drop whitespace from both ends. -/
def jsTrim (s : Str) : Str :=
  ((s.dropWhile Char.isWhitespace).reverse.dropWhile Char.isWhitespace).reverse

/-- Model of String.prototype.toLowerCase (ASCII case folding). -/
def jsToLower (s : Str) : Str := s.map Char.toLower

/-- Model of s.startsWith(p). -/
def jsStartsWith (s p : Str) : Bool := p.isPrefixOf s

/-- Model of String.prototype.split with a single-character separator.
JavaScript split never returns an empty array. -/
def jsSplitCh (c : Char) : Str → List Str
  | [] => [[]]
  | x :: xs =>
    if x = c then [] :: jsSplitCh c xs
    else
      match jsSplitCh c xs with
      | [] => [[x]]
      | s :: rest => (x :: s) :: rest

/-- Model of s.includes(sub): substring containment. -/
def jsIncludes : Str → Str → Bool
  | [], sub => sub.isEmpty
  | c :: rest, sub => sub.isPrefixOf (c :: rest) || jsIncludes rest sub

/-- Little-endian worker for decimal rendering; the first argument is
structural fuel (any fuel at least the digit count gives the answer). -/
def natToStrAux (fuel n : Nat) : Str :=
  match fuel with
  | 0 => []
  | f + 1 =>
    if n = 0 then []
    else natToStrAux f (n / 10) ++ [Nat.digitChar (n % 10)]

/-- Model of JavaScript String(n) for a natural number n: decimal digits,
most significant first. -/
def natToStr (n : Nat) : Str :=
  if n = 0 then ['0'] else natToStrAux n n

/-- The QR payload tag required on every Hemisphere badge. -/
def hemTag : Str := "hemisphere:".toList

/-- Email normalisation used by the register and request-link routes:
String(email).trim().toLowerCase(). -/
def normalizeEmail (e : Str) : Str := jsToLower (jsTrim e)

/-- An attendee row of data/attendees.json.  The register route never
writes checkedIn/checkedInAt; the absent (undefined, hence falsy) fields
are modelled as false / none. -/
structure Attendee where
  id : Str
  firstName : Str
  lastName : Str
  email : Str
  company : Str
  eventId : Option Str
  createdAt : Nat
  checkedIn : Bool
  checkedInAt : Option Nat
  deriving DecidableEq

/-- A scan-log row of data/scanlogs.json (id and timestamp both come from
the clock at append time: Date.now() / new Date().toISOString()). -/
structure ScanLogEntry where
  id : Nat
  attendeeId : Str
  attendeeName : Str
  attendeeEmail : Str
  method : Str
  timestamp : Nat
  deriving DecidableEq

/-- An exhibitor bearer-token row of data/exhibitor_tokens.json;
expiresAt stores new Date(iso).getTime() in milliseconds. -/
structure TokenRecord where
  email : Str
  token : Str
  expiresAt : Nat
  deriving DecidableEq

/-- A lead row of data/leads.json. -/
structure Lead where
  id : Nat
  eventId : Str
  attendeeId : Str
  attendeeName : Str
  attendeeEmail : Str
  exhibitor : Str
  notes : Str
  timestamp : Nat
  deriving DecidableEq

/-- The persistent stores of the application (one JSON file each). -/
structure Sys where
  attendees : List Attendee
  scanlogs : List ScanLogEntry
  leads : List Lead
  tokens : List TokenRecord
  deriving DecidableEq

/-- Array.prototype.findIndex followed by an in-place update of the found
element: returns none when no element matches (the 404 path), otherwise
the updated list together with the updated element. -/
def updateFirstMatch {α : Type} (p : α → Bool) (f : α → α) : List α → Option (List α × α)
  | [] => none
  | a :: rest =>
    if p a then some (f a :: rest, f a)
    else
      match updateFirstMatch p f rest with
      | none => none
      | some (l, u) => some (a :: l, u)

/-- The mutation applied by POST /api/checkin to the found attendee:
checkedIn true sets checkedInAt to the current time, checkedIn false
deletes it. -/
def applyCheck (ci : Bool) (now : Nat) (a : Attendee) : Attendee :=
  if ci then { a with checkedIn := true, checkedInAt := some now }
  else { a with checkedIn := false, checkedInAt := none }

inductive CheckinResult where
  | notFound
  | ok (attendee : Attendee)
  deriving DecidableEq

/-- POST /api/checkin (hemisphere-reg/app/api/checkin/route.ts): find the
attendee by String(a.id) === String(id), 404 when absent, otherwise apply
the check-in mutation and rewrite the file. -/
def checkinPOST (id : Str) (ci : Bool) (now : Nat) (s : Sys) : CheckinResult × Sys :=
  match updateFirstMatch (fun a => a.id == id) (applyCheck ci now) s.attendees with
  | none => (.notFound, s)
  | some (atts, a) => (.ok a, { s with attendees := atts })

inductive RegisterResult where
  | validationError
  | duplicateEmail
  | created (attendee : Attendee) (qrValue : Str)
  deriving DecidableEq

/-- POST /api/register (hemisphere-reg/app/api/register/route.ts):
validate required fields, reject duplicate normalised emails with 409,
otherwise append a new attendee whose id is String(Date.now()) and answer
201 with qrValue = "hemisphere:" + id. -/
def registerPOST (firstName lastName email company : Str) (now : Nat) (s : Sys) :
    RegisterResult × Sys :=
  if firstName.isEmpty || lastName.isEmpty || email.isEmpty then (.validationError, s)
  else
    let ne := normalizeEmail email
    match s.attendees.find? (fun a => normalizeEmail a.email == ne) with
    | some _ => (.duplicateEmail, s)
    | none =>
      let id := natToStr now
      let a : Attendee :=
        { id := id, firstName := firstName, lastName := lastName, email := ne,
          company := company, eventId := none, createdAt := now,
          checkedIn := false, checkedInAt := none }
      (.created a (hemTag ++ id), { s with attendees := s.attendees ++ [a] })

/-- POST /api/scanlog (app/api/scanlog/route.ts): append one audit row;
method defaults to "scan" when the body carries none (body.method || "scan").
Entry id and timestamp both come from the clock. -/
def scanlogPOST (attendeeId attendeeName attendeeEmail method : Str) (now : Nat)
    (s : Sys) : ScanLogEntry × Sys :=
  let m := if method.isEmpty then "scan".toList else method
  let entry : ScanLogEntry :=
    { id := now, attendeeId := attendeeId, attendeeName := attendeeName,
      attendeeEmail := attendeeEmail, method := m, timestamp := now }
  (entry, { s with scanlogs := s.scanlogs ++ [entry] })

/-- Full name shown for an attendee:
(firstName || "") + " " + (lastName || "") then trimmed. -/
def fullName (a : Attendee) : Str := jsTrim (a.firstName ++ " ".toList ++ a.lastName)

/-- Display name used in scan-log rows: the full name, or the literal
"Attendee" when the full name is empty (found.name is never set on
stored rows, so the || chain reduces to this). -/
def displayName (a : Attendee) : Str :=
  if (fullName a).isEmpty then "Attendee".toList else fullName a

/-- The scan-log row the admin page posts after resolving an attendee. -/
def scanEntry (a : Attendee) (method : Str) (now : Nat) : ScanLogEntry :=
  { id := now, attendeeId := a.id, attendeeName := displayName a,
    attendeeEmail := a.email, method := method, timestamp := now }

/-- Newest-first ordering applied by GET /api/attendees before answering;
the JS comparator is new Date(b.createdAt) - new Date(a.createdAt) under a
stable sort (createdAt is set on every stored row). -/
def sortNewestFirst (l : List Attendee) : List Attendee :=
  l.mergeSort (fun a b => b.createdAt ≤ a.createdAt)

/-- Payload normalisation of handleScanResult (admin/page.tsx): trim, add
the hemisphere: tag unless already present (case-insensitively), then take
the substring after the last colon (split(":").pop() || ""). -/
def parseScanId (raw : Str) : Str :=
  let trimmed := jsTrim raw
  let normalized :=
    if jsStartsWith (jsToLower trimmed) hemTag then trimmed else hemTag ++ trimmed
  (jsSplitCh ':' normalized).getLastD []

inductive ScanOutcome where
  | emptyInput
  | badPayload
  | notFound
  | alreadyIn (attendee : Attendee)
  | newCheckin (attendee : Attendee)
  deriving DecidableEq

/-- handleScanResult (admin/page.tsx): parse the payload, resolve the
attendee by exact id (the single-attendee GET and the full-list fallback
both reduce to the first exact String(a.id) match), then: already checked
in - append one scan-log row only; not yet checked in - POST /api/checkin
(which stamps checkedInAt) and append one scan-log row.  Unresolvable
payloads mutate nothing. -/
def handleScanResult (raw : Str) (now : Nat) (s : Sys) : ScanOutcome × Sys :=
  let id := parseScanId raw
  if id.isEmpty then (.badPayload, s)
  else
    match s.attendees.find? (fun a => a.id == id) with
    | none => (.notFound, s)
    | some found =>
      if found.checkedIn then
        (.alreadyIn found,
          (scanlogPOST found.id (displayName found) found.email ("scan".toList) now s).2)
      else
        let s1 := (checkinPOST id true now s).2
        (.newCheckin found,
          (scanlogPOST found.id (displayName found) found.email ("scan".toList) now s1).2)

/-- handleManualCheckin (admin/page.tsx): trim the typed term, search the
newest-first attendee list for the first case-insensitive substring match
against "first last", then follow the same check-in / audit flow with
method "manual".  Zero matches mutate nothing. -/
def handleManualCheckin (manualName : Str) (now : Nat) (s : Sys) : ScanOutcome × Sys :=
  let term := jsTrim manualName
  if term.isEmpty then (.emptyInput, s)
  else
    let lower := jsToLower term
    match (sortNewestFirst s.attendees).find?
        (fun a => jsIncludes (jsToLower (fullName a)) lower) with
    | none => (.notFound, s)
    | some found =>
      if found.checkedIn then
        (.alreadyIn found,
          (scanlogPOST found.id (displayName found) found.email ("manual".toList) now s).2)
      else
        let s1 := (checkinPOST found.id true now s).2
        (.newCheckin found,
          (scanlogPOST found.id (displayName found) found.email ("manual".toList) now s1).2)

structure LeadBody where
  eventId : Str
  attendeeId : Str
  attendeeName : Str
  attendeeEmail : Str
  exhibitor : Str
  notes : Str
  deriving DecidableEq

/-- POST /api/leads (hemisphere-reg/app/api/leads/route.ts): append one
lead row with defaulted eventId/exhibitor/notes.  The handler reads no
request headers: the _auth argument (a bearer token the caller may have
sent) is deliberately ignored, exactly as in the source. -/
def leadsPOST (_auth : Option Str) (body : LeadBody) (now : Nat) (s : Sys) : Lead × Sys :=
  let nl : Lead :=
    { id := now,
      eventId := if body.eventId.isEmpty then "unknown_event".toList else body.eventId,
      attendeeId := body.attendeeId,
      attendeeName := body.attendeeName,
      attendeeEmail := body.attendeeEmail,
      exhibitor := if body.exhibitor.isEmpty then "Unknown Exhibitor".toList else body.exhibitor,
      notes := body.notes,
      timestamp := now }
  (nl, { s with leads := s.leads ++ [nl] })

/-- Bearer-token extraction of GET /api/exhibitors/leads:
auth.toLowerCase().startsWith("bearer ") ? auth.split(" ")[1] : "". -/
def bearerToken (auth : Str) : Str :=
  if jsStartsWith (jsToLower auth) ("bearer ".toList) then (jsSplitCh ' ' auth).getD 1 []
  else []

/-- isTokenValid (app/api/exhibitors/leads/route.ts): first record whose
token matches and whose expiresAt is strictly in the future. -/
def isTokenValid (token : Str) (records : List TokenRecord) (now : Nat) : Option TokenRecord :=
  records.find? (fun t => t.token == token && decide (now < t.expiresAt))

/-- The per-row normalisation GET /api/exhibitors/leads applies before
answering (l.attendeeId ?? "", l.attendeeName || "", and so on); on the
typed rows every field is already present, so each is copied through. -/
def normalizeLead (l : Lead) : Lead :=
  { id := l.id, eventId := l.eventId, attendeeId := l.attendeeId,
    attendeeName := l.attendeeName, attendeeEmail := l.attendeeEmail,
    exhibitor := l.exhibitor, notes := l.notes, timestamp := l.timestamp }

inductive ExhibitorLeadsResult where
  | missingToken
  | invalidToken
  | ok (leads : List Lead) (email : Str)
  deriving DecidableEq

/-- GET /api/exhibitors/leads: 401 when the bearer token is missing,
unknown or expired, otherwise the normalised lead list and the session
email.  The handler performs no write, so every store passes through. -/
def exhibitorLeadsGET (auth : Str) (now : Nat) (s : Sys) : ExhibitorLeadsResult × Sys :=
  let token := bearerToken auth
  if token.isEmpty then (.missingToken, s)
  else
    match isTokenValid token s.tokens now with
    | none => (.invalidToken, s)
    | some v => (.ok (s.leads.map normalizeLead) v.email, s)

inductive RequestLinkResult where
  | badRequest
  | ok (loginUrl : Str) (expiresAt : Nat) (email : Str)
  deriving DecidableEq

/-- POST /api/exhibitors/request-link (src/unnamed/part_003): 400 on an
empty normalised email; otherwise drop every token with expiresAt not
strictly in the future, append a fresh token (crypto.randomUUID() is the
tokenVal input) valid for exactly one hour, and rewrite the token file. -/
def requestLink (email tokenVal : Str) (now : Nat) (s : Sys) : RequestLinkResult × Sys :=
  let ne := normalizeEmail email
  if ne.isEmpty then (.badRequest, s)
  else
    let valid := s.tokens.filter (fun t => decide (now < t.expiresAt))
    let nrec : TokenRecord := { email := ne, token := tokenVal, expiresAt := now + 3600000 }
    (.ok ("/exhibitors?token=".toList ++ tokenVal) (now + 3600000) ne,
      { s with tokens := valid ++ [nrec] })

/-- Fields PATCH /api/attendees/[id] may copy from the payload; a none
field models a key absent from the request body (hasOwnProperty false). -/
structure PatchBody where
  firstName : Option Str
  lastName : Option Str
  email : Option Str
  company : Option Str
  eventId : Option Str
  deriving DecidableEq

/-- The update PATCH applies to the found attendee: spread the current row,
then overwrite exactly the payload-present fields among firstName,
lastName, email, company, eventId. -/
def applyPatch (p : PatchBody) (a : Attendee) : Attendee :=
  { a with
    firstName := p.firstName.getD a.firstName,
    lastName := p.lastName.getD a.lastName,
    email := p.email.getD a.email,
    company := p.company.getD a.company,
    eventId := match p.eventId with | some v => some v | none => a.eventId }

inductive PatchResult where
  | notFound
  | ok (attendee : Attendee)
  deriving DecidableEq

/-- PATCH /api/attendees/[id] (src/unnamed/part_003): strip an optional
hemisphere: prefix from the id, find the attendee, apply the field update
and rewrite the file; 404 when the id is unknown. -/
def attendeePATCH (rawId : Str) (p : PatchBody) (s : Sys) : PatchResult × Sys :=
  let id := (jsSplitCh ':' rawId).getLastD []
  match updateFirstMatch (fun a => a.id == id) (applyPatch p) s.attendees with
  | none => (.notFound, s)
  | some (atts, u) => (.ok u, { s with attendees := atts })

/-- One registration request: the body fields plus the Date.now() value
observed while serving it. -/
structure RegReq where
  firstName : Str
  lastName : Str
  email : Str
  company : Str
  now : Nat
  deriving DecidableEq

/-- A sequence of POST /api/register calls served one after the other. -/
def runRegs (s : Sys) : List RegReq → List RegisterResult × Sys
  | [] => ([], s)
  | r :: rs =>
    let step := registerPOST r.firstName r.lastName r.email r.company r.now s
    let rest := runRegs step.2 rs
    (step.1 :: rest.1, rest.2)

/-- The attendee row a successful registration appends. -/
def regAttendee (r : RegReq) : Attendee :=
  { id := natToStr r.now, firstName := r.firstName, lastName := r.lastName,
    email := normalizeEmail r.email, company := r.company, eventId := none,
    createdAt := r.now, checkedIn := false, checkedInAt := none }

/-- CSV escaping of GET scanlog export: str.replace of every double quote
by two double quotes. -/
def csvEscape (s : Str) : Str :=
  s.flatMap (fun c => if c = '"' then ['"', '"'] else [c])

/-- A CSV field: the escaped value wrapped in double quotes. -/
def csvField (v : Str) : Str := '"' :: csvEscape v ++ ['"']

/-- One CSV data row of the scan-log export: the five fields, each quoted,
joined by commas (numeric id and timestamp rendered via String(value)). -/
def csvRow (e : ScanLogEntry) : Str :=
  List.intercalate (",".toList)
    [csvField (natToStr e.id), csvField e.attendeeId, csvField e.attendeeName,
      csvField e.attendeeEmail, csvField (natToStr e.timestamp)]

/-- The fixed header row of the scan-log export. -/
def csvHeader : Str := "id,attendeeId,attendeeName,attendeeEmail,timestamp".toList

/-- The lines array built by GET scanlog export (src/unnamed/part_000):
header first, then one row per log entry in store order. -/
def csvLines (logs : List ScanLogEntry) : List Str := csvHeader :: logs.map csvRow

/-- The final CSV document: lines.join("\n"). -/
def scanlogCSV (logs : List ScanLogEntry) : Str :=
  List.intercalate ("\n".toList) (csvLines logs)

/-- State of one store file on disk as the fs layer sees it: absent,
present but not valid JSON (or unreadable), or readable with parsed rows. -/
inductive FileState (α : Type) where
  | missing
  | corrupt
  | ok (rows : List α)
  deriving DecidableEq

/-- readLeadsFile (hemisphere-reg/app/api/leads/route.ts): any read or
parse failure is caught and treated as the empty collection. -/
def readLeadsFileFS : FileState Lead → List Lead
  | .ok rows => rows
  | _ => []

/-- The scan-log read inside the CSV export (src/unnamed/part_000): a
missing file becomes "[]" and a parse failure becomes [], so both failure
modes yield the empty collection. -/
def csvReadFS : FileState ScanLogEntry → List ScanLogEntry
  | .ok rows => rows
  | _ => []

/-- readAttendees of the register route (and the attendees list GET of
src/unnamed/part_002): only ENOENT is converted to the empty collection;
corrupt JSON propagates and the route answers 500. -/
def readAttendeesFS : FileState Attendee → Except Unit (List Attendee)
  | .missing => .ok []
  | .corrupt => .error ()
  | .ok rows => .ok rows

/-- GET /api/scanlog (app/api/scanlog/route.ts): any read or parse failure
reaches the catch-all and the route answers 500. -/
def scanlogGETFS : FileState ScanLogEntry → Except Unit (List ScanLogEntry)
  | .ok rows => .ok rows
  | _ => .error ()

/-- POST /api/scanlog at the file level: the read-modify-write cycle fails
with 500 (appending nothing) when the file is unreadable or corrupt, and
also when the final write itself fails (writeOk false). -/
def scanlogPOSTFS (attendeeId attendeeName attendeeEmail method : Str) (now : Nat)
    (fileSt : FileState ScanLogEntry) (writeOk : Bool) :
    Except Unit ScanLogEntry × FileState ScanLogEntry :=
  match fileSt with
  | .ok logs =>
    let m := if method.isEmpty then "scan".toList else method
    let entry : ScanLogEntry :=
      { id := now, attendeeId := attendeeId, attendeeName := attendeeName,
        attendeeEmail := attendeeEmail, method := m, timestamp := now }
    if writeOk then (.ok entry, .ok (logs ++ [entry])) else (.error (), fileSt)
  | _ => (.error (), fileSt)

/-- Concrete attendee used by witness runs: registered, not yet checked in. -/
def wAtt : Attendee :=
  { id := ['7'], firstName := "Ada".toList, lastName := "Lovelace".toList,
    email := "ada@x.com".toList, company := [], eventId := none,
    createdAt := 1, checkedIn := false, checkedInAt := none }

/-- Concrete store holding only wAtt. -/
def wSys : Sys := { attendees := [wAtt], scanlogs := [], leads := [], tokens := [] }

/-- Concrete attendee already checked in (checkedInAt is 3). -/
def wAtt2 : Attendee :=
  { id := ['9'], firstName := "Eva".toList, lastName := "Noether".toList,
    email := "eva@x.com".toList, company := [], eventId := none,
    createdAt := 2, checkedIn := true, checkedInAt := some 3 }

/-- Concrete store holding only wAtt2. -/
def wSys2 : Sys := { attendees := [wAtt2], scanlogs := [], leads := [], tokens := [] }

/-- Concrete PATCH payload touching firstName and eventId only. -/
def wPatch : PatchBody :=
  { firstName := some ("Max".toList), lastName := none, email := none,
    company := none, eventId := some ("evt1".toList) }

/-- Concrete lead-capture body. -/
def wBody : LeadBody :=
  { eventId := [], attendeeId := ['7'], attendeeName := "Ada Lovelace".toList,
    attendeeEmail := "ada@x.com".toList, exhibitor := "Booth".toList, notes := [] }

/-- Concrete exhibitor token that expires at time 3. -/
def wToken : TokenRecord := { email := "exh@x.com".toList, token := "t0".toList, expiresAt := 3 }

/-- Concrete store holding only wToken. -/
def wSys3 : Sys := { attendees := [], scanlogs := [], leads := [], tokens := [wToken] }

/-- Concrete empty store. -/
def wSys0 : Sys := { attendees := [], scanlogs := [], leads := [], tokens := [] }

/-- Concrete registration request observed at clock 1. -/
def wReq1 : RegReq :=
  { firstName := "A".toList, lastName := "B".toList, email := "a@x.com".toList,
    company := [], now := 1 }

/-- Concrete registration request observed at clock 2. -/
def wReq2 : RegReq :=
  { firstName := "C".toList, lastName := "D".toList, email := "b@x.com".toList,
    company := [], now := 2 }

/-! Helper lemmas about the list update used by the checkin and PATCH
routes, and about the decimal rendering of ids. -/

theorem updateFirstMatch_none {α : Type} {p : α → Bool} {f : α → α} {l : List α} :
    updateFirstMatch p f l = none ↔ l.find? p = none := by
  induction l with
  | nil => simp [updateFirstMatch]
  | cons x xs ih =>
    by_cases hx : p x
    · simp [updateFirstMatch, hx, List.find?_cons]
    · simp only [updateFirstMatch, hx, if_neg, List.find?_cons, Bool.false_eq_true]
      cases hrec : updateFirstMatch p f xs with
      | none => simp [hx, ← ih, hrec]
      | some pr => simp [hx, ← ih, hrec]

theorem find?_first_index {α : Type} {p : α → Bool} {l : List α} {a : α}
    (h : l.find? p = some a) :
    ∃ i, l[i]? = some a ∧ p a = true ∧
      (∀ j b, j < i → l[j]? = some b → p b = false) ∧
      ∀ f : α → α, updateFirstMatch p f l = some (l.set i (f a), f a) := by
  induction l with
  | nil => simp at h
  | cons x xs ih =>
    rw [List.find?_cons] at h
    cases hx : p x with
    | true =>
      rw [hx] at h
      obtain rfl : x = a := by cases h; rfl
      refine ⟨0, by simp, hx, ?_, ?_⟩
      · intro j b hj; omega
      · intro f; simp [updateFirstMatch, hx]
    | false =>
      rw [hx] at h
      obtain ⟨i, h1, h2, h3, h4⟩ := ih h
      refine ⟨i + 1, by simpa using h1, h2, ?_, ?_⟩
      · intro j b hj hb
        cases j with
        | zero => simp at hb; subst hb; exact hx
        | succ k => exact h3 k b (by omega) (by simpa using hb)
      · intro f
        simp [updateFirstMatch, hx, h4 f]

theorem find?_set_first {α : Type} {p : α → Bool} {l : List α} {i : Nat} {a c : α}
    (hi : l[i]? = some a)
    (hearly : ∀ j b, j < i → l[j]? = some b → p b = false)
    (hc : p c = true) : (l.set i c).find? p = some c := by
  induction l generalizing i with
  | nil => simp at hi
  | cons x xs ih =>
    cases i with
    | zero => simp [List.set, List.find?_cons, hc]
    | succ k =>
      have hx : p x = false := hearly 0 x (by omega) (by simp)
      simp only [List.set, List.find?_cons, hx]
      exact ih (by simpa using hi)
        (fun j b hj hb => hearly (j + 1) b (by omega) (by simpa using hb))

theorem natToStrAux_eq :
    ∀ fuel n, n ≤ fuel →
      natToStrAux fuel n = ((Nat.digits 10 n).map Nat.digitChar).reverse := by
  intro fuel
  induction fuel with
  | zero =>
    intro n hn
    obtain rfl : n = 0 := by omega
    simp [natToStrAux]
  | succ f ih =>
    intro n hn
    by_cases h0 : n = 0
    · subst h0; simp [natToStrAux]
    · have hdiv : n / 10 ≤ f := by
        have := Nat.div_lt_self (Nat.pos_of_ne_zero h0) (by norm_num : 1 < 10)
        omega
      rw [natToStrAux, if_neg h0, ih (n / 10) hdiv,
        Nat.digits_def' (by norm_num : 1 < 10) (Nat.pos_of_ne_zero h0)]
      simp

theorem digitChar_inj_lt :
    ∀ a < 10, ∀ b < 10, Nat.digitChar a = Nat.digitChar b → a = b := by decide

theorem map_digitChar_inj :
    ∀ l1 l2 : List Nat, (∀ x ∈ l1, x < 10) → (∀ x ∈ l2, x < 10) →
      l1.map Nat.digitChar = l2.map Nat.digitChar → l1 = l2 := by
  intro l1
  induction l1 with
  | nil => intro l2 _ _ h; cases l2 <;> simp_all
  | cons x xs ih =>
    intro l2 h1 h2 h
    cases l2 with
    | nil => simp at h
    | cons y ys =>
      simp only [List.map_cons, List.cons.injEq] at h
      have hx : x = y :=
        digitChar_inj_lt x (h1 x (by simp)) y (h2 y (by simp)) h.1
      have : xs = ys :=
        ih ys (fun z hz => h1 z (by simp [hz])) (fun z hz => h2 z (by simp [hz])) h.2
      simp [hx, this]

theorem natToStr_nonzero {n : Nat} (h0 : n ≠ 0) :
    natToStr n = ((Nat.digits 10 n).map Nat.digitChar).reverse := by
  rw [natToStr, if_neg h0]
  exact natToStrAux_eq n n le_rfl

theorem natToStr_eq_zeroChar {n : Nat} (hn : n ≠ 0) (h : natToStr n = ['0']) : False := by
  rw [natToStr_nonzero hn, List.reverse_eq_iff] at h
  simp only [List.reverse_cons, List.reverse_nil, List.nil_append] at h
  cases hds : Nat.digits 10 n with
  | nil => rw [hds] at h; simp at h
  | cons d tail =>
    rw [hds] at h
    simp only [List.map_cons, List.cons.injEq, List.map_eq_nil_iff] at h
    obtain ⟨hd, htail⟩ := h
    have hdlt : d < 10 :=
      Nat.digits_lt_base (by norm_num) (by rw [hds]; simp)
    have hd0 : d = 0 := by
      refine digitChar_inj_lt d hdlt 0 (by norm_num) ?_
      rw [hd]; decide
    have := Nat.ofDigits_digits 10 n
    rw [hds, htail, hd0] at this
    simp [Nat.ofDigits] at this
    omega

theorem natToStr_injective {m n : Nat} (h : natToStr m = natToStr n) : m = n := by
  by_cases hm : m = 0 <;> by_cases hn : n = 0
  · omega
  · exfalso
    subst hm
    have h0 : natToStr 0 = ['0'] := rfl
    exact natToStr_eq_zeroChar hn (h.symm.trans h0)
  · exfalso
    subst hn
    have h0 : natToStr 0 = ['0'] := rfl
    exact natToStr_eq_zeroChar hm (h.trans h0)
  · rw [natToStr_nonzero hm, natToStr_nonzero hn] at h
    have h2 : (Nat.digits 10 m).map Nat.digitChar = (Nat.digits 10 n).map Nat.digitChar :=
      List.reverse_injective h
    have h3 : Nat.digits 10 m = Nat.digits 10 n :=
      map_digitChar_inj _ _
        (fun x hx => Nat.digits_lt_base (by norm_num) hx)
        (fun x hx => Nat.digits_lt_base (by norm_num) hx) h2
    exact Nat.digits_inj_iff.mp h3

/-! Helper lemmas about the JavaScript string model: trimming, case
folding and splitting, as used by payload parsing and email
normalisation. -/

theorem head?_dropWhile_ne {α : Type} {p : α → Bool} {l : List α} {x : α}
    (h : (l.dropWhile p).head? = some x) : p x = false := by
  have := List.head?_dropWhile_not p l
  rw [h] at this
  exact this

theorem getLast?_dropWhile_of_ne_nil {α : Type} {p : α → Bool} {l : List α}
    (h : l.dropWhile p ≠ []) : (l.dropWhile p).getLast? = l.getLast? := by
  induction l with
  | nil => simp at h
  | cons a t ih =>
    rw [List.dropWhile_cons]
    by_cases ha : p a
    · rw [if_pos ha]
      rw [List.dropWhile_cons, if_pos ha] at h
      have ht : t ≠ [] := by
        intro e; rw [e] at h; simp at h
      rw [ih h]
      exact (List.getLast?_append_of_ne_nil [a] ht).symm
    · rw [if_neg ha]

theorem dropWhile_eq_self_of_head {α : Type} {p : α → Bool} {l : List α}
    (h : ∀ x, l.head? = some x → p x = false) : l.dropWhile p = l := by
  cases l with
  | nil => rfl
  | cons a t => rw [List.dropWhile_cons, if_neg (by simp [h a rfl])]

theorem jsTrim_eq_self {s : Str}
    (h1 : ∀ x, s.head? = some x → x.isWhitespace = false)
    (h2 : ∀ x, s.getLast? = some x → x.isWhitespace = false) : jsTrim s = s := by
  unfold jsTrim
  rw [dropWhile_eq_self_of_head h1,
    dropWhile_eq_self_of_head (by intro x hx; exact h2 x (by rwa [List.head?_reverse] at hx)),
    List.reverse_reverse]

theorem jsTrim_head {s : Str} {x : Char} (h : (jsTrim s).head? = some x) :
    x.isWhitespace = false := by
  unfold jsTrim at h
  rw [List.head?_reverse] at h
  have hne : (s.dropWhile Char.isWhitespace).reverse.dropWhile Char.isWhitespace ≠ [] := by
    intro e; rw [e] at h; simp at h
  rw [getLast?_dropWhile_of_ne_nil hne, List.getLast?_reverse] at h
  exact head?_dropWhile_ne h

theorem jsTrim_getLast {s : Str} {x : Char} (h : (jsTrim s).getLast? = some x) :
    x.isWhitespace = false := by
  unfold jsTrim at h
  rw [List.getLast?_reverse] at h
  exact head?_dropWhile_ne h

theorem jsTrim_idem (s : Str) : jsTrim (jsTrim s) = jsTrim s :=
  jsTrim_eq_self (fun _ h => jsTrim_head h) (fun _ h => jsTrim_getLast h)

theorem toNat_ofNat_valid (n : Nat) (h : n.isValidChar) : (Char.ofNat n).toNat = n := by
  unfold Char.ofNat
  rw [dif_pos h]
  rfl

theorem toLower_eq_ite (c : Char) :
    c.toLower = if c.toNat ≥ 65 ∧ c.toNat ≤ 90 then Char.ofNat (c.toNat + 32) else c := rfl

theorem not_ws_of_gt64 {x : Char} (h : 64 < x.toNat) : x.isWhitespace = false := by
  cases hw : x.isWhitespace with
  | false => rfl
  | true =>
    simp only [Char.isWhitespace, Bool.or_eq_true, decide_eq_true_eq] at hw
    rcases hw with ((rfl | rfl) | rfl) | rfl <;> exact absurd h (by decide)

theorem toLower_idem (c : Char) : c.toLower.toLower = c.toLower := by
  rw [toLower_eq_ite c]
  by_cases h : c.toNat ≥ 65 ∧ c.toNat ≤ 90
  · rw [if_pos h]
    have hv : (c.toNat + 32).isValidChar := Or.inl (by omega)
    rw [toLower_eq_ite, toNat_ofNat_valid _ hv, if_neg (by omega)]
  · rw [if_neg h, toLower_eq_ite, if_neg h]

theorem isWhitespace_toLower (c : Char) : c.toLower.isWhitespace = c.isWhitespace := by
  rw [toLower_eq_ite]
  by_cases h : c.toNat ≥ 65 ∧ c.toNat ≤ 90
  · rw [if_pos h]
    have hv : (c.toNat + 32).isValidChar := Or.inl (by omega)
    rw [not_ws_of_gt64 (x := Char.ofNat (c.toNat + 32)) (by rw [toNat_ofNat_valid _ hv]; omega),
      not_ws_of_gt64 (by omega : 64 < c.toNat)]
  · rw [if_neg h]

theorem jsToLower_idem (s : Str) : jsToLower (jsToLower s) = jsToLower s := by
  unfold jsToLower
  induction s with
  | nil => rfl
  | cons a t ih => simp only [List.map_cons, toLower_idem, ih]

theorem normalizeEmail_idem (e : Str) : normalizeEmail (normalizeEmail e) = normalizeEmail e := by
  unfold normalizeEmail
  rw [jsTrim_eq_self ?h1 ?h2, jsToLower_idem]
  case h1 =>
    intro x hx
    rw [jsToLower, List.head?_map] at hx
    cases hy : (jsTrim e).head? with
    | none => rw [hy] at hx; simp at hx
    | some y =>
      rw [hy] at hx
      obtain rfl : y.toLower = x := by simpa using hx
      rw [isWhitespace_toLower]
      exact jsTrim_head hy
  case h2 =>
    intro x hx
    rw [jsToLower, List.getLast?_map] at hx
    cases hy : (jsTrim e).getLast? with
    | none => rw [hy] at hx; simp at hx
    | some y =>
      rw [hy] at hx
      obtain rfl : y.toLower = x := by simpa using hx
      rw [isWhitespace_toLower]
      exact jsTrim_getLast hy

theorem digit_ne_colon {c : Char} (h : c.isDigit = true) : c ≠ ':' := by
  intro e
  subst e
  exact absurd h (by decide)

theorem digit_not_ws {c : Char} (h : c.isDigit = true) : c.isWhitespace = false := by
  cases hw : c.isWhitespace with
  | false => rfl
  | true =>
    simp only [Char.isWhitespace, Bool.or_eq_true, decide_eq_true_eq] at hw
    rcases hw with ((rfl | rfl) | rfl) | rfl <;> exact absurd h (by decide)

theorem jsSplitCh_no_sep {c : Char} {s : Str} (h : ∀ x ∈ s, x ≠ c) : jsSplitCh c s = [s] := by
  induction s with
  | nil => rfl
  | cons a t ih =>
    simp only [jsSplitCh, if_neg (h a (List.mem_cons_self a t)),
      ih (fun x hx => h x (List.mem_cons_of_mem a hx))]

theorem jsSplitCh_sep_append {c : Char} {xs ys : Str} (h : ∀ x ∈ xs, x ≠ c) :
    jsSplitCh c (xs ++ c :: ys) = xs :: jsSplitCh c ys := by
  induction xs with
  | nil => simp [jsSplitCh]
  | cons a t ih =>
    have hrest : jsSplitCh c (t ++ c :: ys) = t :: jsSplitCh c ys :=
      ih (fun x hx => h x (List.mem_cons_of_mem a hx))
    simp only [List.cons_append, jsSplitCh, if_neg (h a (List.mem_cons_self a t))]
    rw [show t.append (c :: ys) = t ++ c :: ys from rfl, hrest]

theorem parseScanId_tag {id : Str} (hne : id ≠ []) (hdig : ∀ c ∈ id, c.isDigit = true) :
    parseScanId (hemTag ++ id) = id := by
  have htrim : jsTrim (hemTag ++ id) = hemTag ++ id := by
    apply jsTrim_eq_self
    · intro x hx
      have hh : (hemTag ++ id).head? = some 'h' := rfl
      rw [hh] at hx
      obtain rfl : 'h' = x := by simpa using hx
      decide
    · intro x hx
      rw [List.getLast?_append_of_ne_nil _ hne] at hx
      exact digit_not_ws (hdig x (List.mem_of_mem_getLast? hx))
  have hlow : jsStartsWith (jsToLower (hemTag ++ id)) hemTag = true := by
    rw [jsToLower, List.map_append]
    have hmap : List.map Char.toLower hemTag = hemTag := by decide
    rw [hmap, jsStartsWith]
    exact List.isPrefixOf_iff_prefix.mpr (List.prefix_append _ _)
  have hsplit : jsSplitCh ':' (hemTag ++ id) = "hemisphere".toList :: [id] := by
    have h1 : hemTag ++ id = "hemisphere".toList ++ ':' :: id := by
      have h2 : hemTag = "hemisphere".toList ++ [':'] := by decide
      rw [h2, List.append_assoc]
      rfl
    rw [h1, jsSplitCh_sep_append (by decide : ∀ x ∈ "hemisphere".toList, x ≠ ':'),
      jsSplitCh_no_sep (fun x hx => digit_ne_colon (hdig x hx))]
  unfold parseScanId
  simp only [htrim, hlow, if_true, hsplit]
  simp [List.getLastD]

/-! Claim theorems. -/

theorem isEmpty_false_of_ne_nil {l : Str} (h : l ≠ []) : l.isEmpty = false := by
  cases l with
  | nil => exact absurd rfl h
  | cons a t => rfl

/-- C1: submitting the payload "hemisphere:" + id to the check-in workflow
repeatedly: the first submission flips the resolved attendee from not
checked in to checked in and stamps checkedInAt with the current time,
appending one scan-log row; every subsequent submission (any state whose
attendee store equals the once-updated one) leaves the attendee store -
in particular checkedInAt - unchanged and still appends exactly one
scan-log row. -/
theorem C1_repeat_scan (id : Str) (a : Attendee) (s : Sys) (now : Nat)
    (hne : id ≠ []) (hdig : ∀ c ∈ id, c.isDigit = true)
    (hfind : s.attendees.find? (fun b => b.id == id) = some a)
    (hnotin : a.checkedIn = false) :
    ∃ i, s.attendees[i]? = some a ∧
      handleScanResult (hemTag ++ id) now s =
        (.newCheckin a,
          { s with attendees := s.attendees.set i (applyCheck true now a),
                   scanlogs := s.scanlogs ++ [scanEntry a ("scan".toList) now] }) ∧
      (applyCheck true now a).checkedIn = true ∧
      (applyCheck true now a).checkedInAt = some now ∧
      ∀ (s2 : Sys) (n2 : Nat), s2.attendees = s.attendees.set i (applyCheck true now a) →
        handleScanResult (hemTag ++ id) n2 s2 =
          (.alreadyIn (applyCheck true now a),
            { s2 with scanlogs :=
                s2.scanlogs ++ [scanEntry (applyCheck true now a) ("scan".toList) n2] }) := by
  obtain ⟨i, hi, hpa, hearly, hupd⟩ := find?_first_index hfind
  have hie : id.isEmpty = false := isEmpty_false_of_ne_nil hne
  refine ⟨i, hi, ?_, rfl, rfl, ?_⟩
  · simp only [handleScanResult, parseScanId_tag hne hdig, hie, Bool.false_eq_true,
      if_false, hfind, hnotin, checkinPOST, hupd (applyCheck true now), scanlogPOST]
    rfl
  · intro s2 n2 hs2
    have hfind2 : s2.attendees.find? (fun b => b.id == id) = some (applyCheck true now a) := by
      rw [hs2]
      exact find?_set_first hi hearly hpa
    simp only [handleScanResult, parseScanId_tag hne hdig, hie, Bool.false_eq_true,
      if_false, hfind2, scanlogPOST]
    rfl

/-- Witness for C1: running the theorem on the concrete one-attendee store
at clock 5 produces the checked-in outcome. -/
theorem C1_repeat_scan_witness :
    wSys.attendees.find? (fun b => b.id == ['7']) = some wAtt ∧
    wAtt.checkedIn = false ∧
    (handleScanResult (hemTag ++ ['7']) 5 wSys).1 = ScanOutcome.newCheckin wAtt := by
  refine ⟨by decide, rfl, ?_⟩
  obtain ⟨i, hi, h2, h3, h4, h5⟩ :=
    C1_repeat_scan ['7'] wAtt wSys 5 (by decide) (by decide) (by decide) rfl
  rw [h2]

/-- C7: the checkin endpoint itself is not idempotent on checkedInAt - a
direct POST /checkin with checkedIn true on an already-checked-in attendee
overwrites the stored checkedInAt (some t0) with the current request time;
the original timestamp survives repeat scans only because the admin page
guard skips the endpoint for already-checked-in attendees, leaving the
attendee store unchanged. -/
theorem C7_checkin_overwrite (id : Str) (a : Attendee) (s : Sys) (now t0 : Nat)
    (hne : id ≠ []) (hdig : ∀ c ∈ id, c.isDigit = true)
    (hfind : s.attendees.find? (fun b => b.id == id) = some a)
    (hin : a.checkedIn = true) (_hat : a.checkedInAt = some t0) :
    ∃ i, s.attendees[i]? = some a ∧
      checkinPOST id true now s =
        (.ok (applyCheck true now a),
          { s with attendees := s.attendees.set i (applyCheck true now a) }) ∧
      (applyCheck true now a).checkedInAt = some now ∧
      (handleScanResult (hemTag ++ id) now s).2.attendees = s.attendees := by
  obtain ⟨i, hi, hpa, hearly, hupd⟩ := find?_first_index hfind
  have hie : id.isEmpty = false := isEmpty_false_of_ne_nil hne
  refine ⟨i, hi, ?_, rfl, ?_⟩
  · simp only [checkinPOST, hupd (applyCheck true now)]
  · simp only [handleScanResult, parseScanId_tag hne hdig, hie, Bool.false_eq_true,
      if_false, hfind, hin, if_true, scanlogPOST]

/-- Witness for C7: at clock 5 the endpoint rewrites wAtt2's checkedInAt
from 3 to 5. -/
theorem C7_checkin_overwrite_witness :
    wSys2.attendees.find? (fun b => b.id == ['9']) = some wAtt2 ∧
    wAtt2.checkedInAt = some 3 ∧
    (checkinPOST ['9'] true 5 wSys2).1 = CheckinResult.ok (applyCheck true 5 wAtt2) ∧
    (applyCheck true 5 wAtt2).checkedInAt = some 5 := by
  refine ⟨by decide, rfl, ?_, rfl⟩
  obtain ⟨i, hi, h2, h3, h4⟩ :=
    C7_checkin_overwrite ['9'] wAtt2 wSys2 5 3 (by decide) (by decide) (by decide) rfl rfl
  rw [h2]

theorem updateFirstMatch_some {α : Type} {p : α → Bool} {f : α → α} {l l2 : List α} {u : α}
    (h : updateFirstMatch p f l = some (l2, u)) :
    ∃ i a, l[i]? = some a ∧ p a = true ∧ u = f a ∧ l2 = l.set i (f a) := by
  induction l generalizing l2 u with
  | nil => simp [updateFirstMatch] at h
  | cons x xs ih =>
    simp only [updateFirstMatch] at h
    by_cases hx : p x
    · rw [if_pos hx] at h
      have hp := Option.some.inj h
      injection hp with hp1 hp2
      refine ⟨0, x, by simp, hx, hp2.symm, ?_⟩
      rw [← hp1]
      simp
    · rw [if_neg hx] at h
      cases hr : updateFirstMatch p f xs with
      | none => rw [hr] at h; simp at h
      | some pr2 =>
        obtain ⟨l3, u3⟩ := pr2
        rw [hr] at h
        obtain ⟨i, a, hi, hpa, hu3, hl3⟩ := ih hr
        have hp := Option.some.inj h
        injection hp with hp1 hp2
        refine ⟨i + 1, a, by simpa using hi, hpa, ?_, ?_⟩
        · rw [← hp2]; exact hu3
        · rw [← hp1]
          simp [hl3]

/-- C3: a registration whose email, after trimming and case-insensitive
comparison, equals the email of an attendee already in the store fails
with DuplicateError (409) and leaves every store - the attendee store in
particular - unchanged. -/
theorem C3_duplicate_register (fn ln em co : Str) (s : Sys) (now : Nat) (a : Attendee)
    (h1 : fn ≠ []) (h2 : ln ≠ []) (h3 : em ≠ [])
    (hmem : a ∈ s.attendees)
    (hdup : normalizeEmail a.email = normalizeEmail em) :
    registerPOST fn ln em co now s = (.duplicateEmail, s) := by
  have hs : (s.attendees.find? (fun b => normalizeEmail b.email == normalizeEmail em)).isSome := by
    rw [List.find?_isSome]
    exact ⟨a, hmem, by simp [hdup]⟩
  obtain ⟨x, hx⟩ := Option.isSome_iff_exists.mp hs
  simp only [registerPOST, isEmpty_false_of_ne_nil h1, isEmpty_false_of_ne_nil h2,
    isEmpty_false_of_ne_nil h3, Bool.or_self, Bool.or_false, Bool.false_eq_true, if_false, hx]

/-- Witness for C3: re-registering "Ada@X.com " (different case, trailing
space) against the store already holding ada@x.com is rejected unchanged. -/
theorem C3_duplicate_register_witness :
    wAtt ∈ wSys.attendees ∧
    normalizeEmail wAtt.email = normalizeEmail ("Ada@X.com ".toList) ∧
    registerPOST ("Bob".toList) ("B".toList) ("Ada@X.com ".toList) [] 9 wSys =
      (RegisterResult.duplicateEmail, wSys) :=
  ⟨by decide, by decide,
    C3_duplicate_register ("Bob".toList) ("B".toList) ("Ada@X.com ".toList) [] wSys 9 wAtt
      (by decide) (by decide) (by decide) (by decide) (by decide)⟩

/-- C9: a manual check-in whose trimmed search term matches no attendee's
"first last" name as a case-insensitive substring fails with the
not-found outcome and mutates nothing: no attendee changes and no
scan-log row is appended. -/
theorem C9_manual_no_match (manualName : Str) (now : Nat) (s : Sys)
    (h1 : jsTrim manualName ≠ [])
    (h2 : ∀ a ∈ s.attendees,
      jsIncludes (jsToLower (fullName a)) (jsToLower (jsTrim manualName)) = false) :
    handleManualCheckin manualName now s = (.notFound, s) := by
  have hie : (jsTrim manualName).isEmpty = false := isEmpty_false_of_ne_nil h1
  have hfind : (sortNewestFirst s.attendees).find?
      (fun a => jsIncludes (jsToLower (fullName a)) (jsToLower (jsTrim manualName))) = none := by
    rw [List.find?_eq_none]
    intro x hx
    have hxm : x ∈ s.attendees := by
      unfold sortNewestFirst at hx
      exact (List.mergeSort_perm s.attendees _).mem_iff.mp hx
    simp [h2 x hxm]
  simp only [handleManualCheckin, hie, Bool.false_eq_true, if_false, hfind]

/-- Witness for C9: searching "zz" in the store holding only Ada Lovelace
resolves nobody and changes nothing. -/
theorem C9_manual_no_match_witness :
    jsTrim ("zz".toList) ≠ [] ∧
    (∀ a ∈ wSys.attendees,
      jsIncludes (jsToLower (fullName a)) (jsToLower (jsTrim ("zz".toList))) = false) ∧
    handleManualCheckin ("zz".toList) 5 wSys = (ScanOutcome.notFound, wSys) :=
  ⟨by decide, by decide, C9_manual_no_match ("zz".toList) 5 wSys (by decide) (by decide)⟩

/-- C10: a PATCH on an existing attendee can change only firstName,
lastName, email, company and eventId of that attendee: its id, createdAt,
checkedIn and checkedInAt fields are preserved, every other attendee row
is untouched, the store size is unchanged, and no other store is
written. -/
theorem C10_patch_frame (rawId : Str) (p : PatchBody) (s : Sys) (a2 : Attendee) (s2 : Sys)
    (h : attendeePATCH rawId p s = (.ok a2, s2)) :
    ∃ i a, s.attendees[i]? = some a ∧ a2 = applyPatch p a ∧
      s2.attendees = s.attendees.set i (applyPatch p a) ∧
      s2.attendees.length = s.attendees.length ∧
      (∀ j, j ≠ i → s2.attendees[j]? = s.attendees[j]?) ∧
      (applyPatch p a).id = a.id ∧
      (applyPatch p a).createdAt = a.createdAt ∧
      (applyPatch p a).checkedIn = a.checkedIn ∧
      (applyPatch p a).checkedInAt = a.checkedInAt ∧
      s2.scanlogs = s.scanlogs ∧ s2.leads = s.leads ∧ s2.tokens = s.tokens := by
  simp only [attendeePATCH] at h
  cases hu : updateFirstMatch (fun b => b.id == (jsSplitCh ':' rawId).getLastD [])
      (applyPatch p) s.attendees with
  | none => rw [hu] at h; simp at h
  | some pr =>
    obtain ⟨atts, u⟩ := pr
    rw [hu] at h
    injection h with hfst hsnd
    have ha2 : u = a2 := by injection hfst
    have hs2 : s2 = { s with attendees := atts } := hsnd.symm
    obtain ⟨i, a, hi, hpa, hu2, hatts⟩ := updateFirstMatch_some hu
    refine ⟨i, a, hi, by rw [← ha2, hu2], ?_, ?_, ?_, rfl, rfl, rfl, rfl, ?_, ?_, ?_⟩
    · rw [hs2]; exact hatts
    · rw [hs2]
      show (atts : List Attendee).length = s.attendees.length
      rw [hatts]
      simp
    · intro j hj
      rw [hs2]
      show (atts : List Attendee)[j]? = _
      rw [hatts]
      exact List.getElem?_set_ne (by omega)
    · rw [hs2]
    · rw [hs2]
    · rw [hs2]

/-- Witness for C10: patching attendee 9's firstName and eventId keeps the
store size and the identity fields. -/
theorem C10_patch_frame_witness :
    attendeePATCH ['9'] wPatch wSys2 =
      (PatchResult.ok (applyPatch wPatch wAtt2),
        { wSys2 with attendees := [applyPatch wPatch wAtt2] }) ∧
    ({ wSys2 with attendees := [applyPatch wPatch wAtt2] } : Sys).attendees.length =
      wSys2.attendees.length := by
  refine ⟨by decide, ?_⟩
  obtain ⟨i, a, hi, ha2, hset, hlen, hrest⟩ :=
    C10_patch_frame ['9'] wPatch wSys2 (applyPatch wPatch wAtt2)
      { wSys2 with attendees := [applyPatch wPatch wAtt2] } (by decide)
  exact hlen

/-- C2 counterexample: the claim asserts that a lead-capture request whose
bearer token is absent from the token store appends nothing, but the
lead-capture POST route reads no headers at all: with an empty token store
(so that every token, including an absent one, is unknown) the request
still appends a lead row. -/
theorem C2_counterexample :
    ¬ (∀ (body : LeadBody) (now : Nat) (s : Sys), s.tokens = [] →
        (leadsPOST none body now s).2.leads = s.leads) := by
  intro h
  have h0 := h wBody 0 { attendees := [], scanlogs := [], leads := [], tokens := [] } rfl
  exact absurd h0 (by decide)

/-- C2 (amended): the token-gated request is the leads-retrieval GET
/exhibitors/leads: when its bearer token is missing, absent from the token
store, or not strictly unexpired, it answers 401 (missing/invalid token)
and every store - the lead store in particular - is unchanged; the
lead-capture POST /leads performs no token validation and appends exactly
one lead row regardless of any token. -/
theorem C2_leads_auth (auth : Str) (now : Nat) (s : Sys)
    (h : isTokenValid (bearerToken auth) s.tokens now = none) :
    ((exhibitorLeadsGET auth now s).1 = ExhibitorLeadsResult.missingToken ∨
      (exhibitorLeadsGET auth now s).1 = ExhibitorLeadsResult.invalidToken) ∧
    (exhibitorLeadsGET auth now s).2 = s ∧
    ∀ (a2 : Option Str) (body : LeadBody) (n2 : Nat) (s3 : Sys),
      (leadsPOST a2 body n2 s3).2.leads = s3.leads ++ [(leadsPOST a2 body n2 s3).1] := by
  simp only [exhibitorLeadsGET]
  by_cases ht : (bearerToken auth).isEmpty = true
  · rw [if_pos ht]
    exact ⟨Or.inl rfl, rfl, fun a2 body n2 s3 => rfl⟩
  · rw [if_neg ht, h]
    exact ⟨Or.inr rfl, rfl, fun a2 body n2 s3 => rfl⟩

/-- Witness for C2 (amended): presenting the stored but expired token t0
at time 10 (it expired at 3) is rejected and the store is untouched. -/
theorem C2_leads_auth_witness :
    isTokenValid (bearerToken ("Bearer t0".toList)) wSys3.tokens 10 = none ∧
    ((exhibitorLeadsGET ("Bearer t0".toList) 10 wSys3).1 =
        ExhibitorLeadsResult.missingToken ∨
      (exhibitorLeadsGET ("Bearer t0".toList) 10 wSys3).1 =
        ExhibitorLeadsResult.invalidToken) ∧
    (exhibitorLeadsGET ("Bearer t0".toList) 10 wSys3).2 = wSys3 := by
  refine ⟨by decide, ?_, ?_⟩
  · exact (C2_leads_auth ("Bearer t0".toList) 10 wSys3 (by decide)).1
  · exact (C2_leads_auth ("Bearer t0".toList) 10 wSys3 (by decide)).2.1

/-- C8: a login-link request with a non-empty (normalised) email issues a
token expiring exactly one hour (3600000 ms) after the issuance time; the
rewritten token store holds exactly the previously unexpired tokens plus
the new one - so no stored token has expiresAt at or before the issuance
time, and nothing unexpired is dropped - and the only other operation that
touches the token store, the exhibitor leads GET, never writes it. -/
theorem C8_request_link (email tokenVal : Str) (now : Nat) (s : Sys)
    (h : normalizeEmail email ≠ []) :
    (requestLink email tokenVal now s).1 =
      RequestLinkResult.ok ("/exhibitors?token=".toList ++ tokenVal) (now + 3600000)
        (normalizeEmail email) ∧
    (requestLink email tokenVal now s).2.tokens =
      s.tokens.filter (fun t => decide (now < t.expiresAt)) ++
        [{ email := normalizeEmail email, token := tokenVal, expiresAt := now + 3600000 }] ∧
    (∀ t ∈ (requestLink email tokenVal now s).2.tokens, now < t.expiresAt) ∧
    (∀ t ∈ s.tokens, now < t.expiresAt → t ∈ (requestLink email tokenVal now s).2.tokens) ∧
    (∀ (auth : Str) (n2 : Nat) (s3 : Sys), (exhibitorLeadsGET auth n2 s3).2 = s3) := by
  have hie : (normalizeEmail email).isEmpty = false := isEmpty_false_of_ne_nil h
  have htok : (requestLink email tokenVal now s).2.tokens =
      s.tokens.filter (fun t => decide (now < t.expiresAt)) ++
        [{ email := normalizeEmail email, token := tokenVal, expiresAt := now + 3600000 }] := by
    simp only [requestLink, hie, Bool.false_eq_true, if_false]
  refine ⟨?_, htok, ?_, ?_, ?_⟩
  · simp only [requestLink, hie, Bool.false_eq_true, if_false]
  · intro t ht
    rw [htok, List.mem_append] at ht
    rcases ht with hf | hn
    · exact of_decide_eq_true (List.mem_filter.mp hf).2
    · rw [List.mem_singleton] at hn
      subst hn
      show now < now + 3600000
      omega
  · intro t ht hlt
    rw [htok]
    exact List.mem_append_left _ (List.mem_filter.mpr ⟨ht, decide_eq_true hlt⟩)
  · intro auth n2 s3
    simp only [exhibitorLeadsGET]
    by_cases ht : (bearerToken auth).isEmpty = true
    · rw [if_pos ht]
    · rw [if_neg ht]
      cases hv : isTokenValid (bearerToken auth) s3.tokens n2 with
      | none => rfl
      | some v => rfl

/-- Witness for C8: issuing a link at time 10 over a store holding one
token that expired at 3 prunes it and stores exactly the fresh token
expiring at 3600010. -/
theorem C8_request_link_witness :
    normalizeEmail ("Exh@Example.com".toList) ≠ [] ∧
    (requestLink ("Exh@Example.com".toList) ("t1".toList) 10 wSys3).2.tokens =
      [{ email := "exh@example.com".toList, token := "t1".toList, expiresAt := 3600010 }] ∧
    (∀ t ∈ (requestLink ("Exh@Example.com".toList) ("t1".toList) 10 wSys3).2.tokens,
      10 < t.expiresAt) := by
  refine ⟨by decide, ?_, ?_⟩
  · have h2 := (C8_request_link ("Exh@Example.com".toList) ("t1".toList) 10 wSys3
      (by decide)).2.1
    rw [h2]
    decide
  · exact (C8_request_link ("Exh@Example.com".toList) ("t1".toList) 10 wSys3
      (by decide)).2.2.1

/-- C5 counterexample: the claim says every store read treats an
unreadable or corrupt file as the empty collection, but GET /api/scanlog
reaches its catch-all on a corrupt file and answers 500, not []. -/
theorem C5_counterexample :
    scanlogGETFS FileState.corrupt = Except.error () ∧
    scanlogGETFS FileState.corrupt ≠ Except.ok [] :=
  ⟨rfl, fun h => Except.noConfusion h⟩

/-- C5 (amended): the fail-open / fail-closed split is per reader: the
lead-store read and the CSV-export read treat both a missing and a corrupt
file as the empty collection; the attendee/token-style read treats only a
missing file as empty and fails (500) on corrupt JSON; the scan-log GET
fails (500) on both; and the scan-log write path fails with 500, leaving
the file unchanged, when the file is unreadable or corrupt or when the
write itself fails. -/
theorem C5_read_write_asymmetry :
    (readLeadsFileFS FileState.missing = [] ∧ readLeadsFileFS FileState.corrupt = [] ∧
      ∀ rows : List Lead, readLeadsFileFS (FileState.ok rows) = rows) ∧
    (csvReadFS FileState.missing = [] ∧ csvReadFS FileState.corrupt = [] ∧
      ∀ rows : List ScanLogEntry, csvReadFS (FileState.ok rows) = rows) ∧
    (readAttendeesFS FileState.missing = Except.ok [] ∧
      readAttendeesFS FileState.corrupt = Except.error () ∧
      ∀ rows : List Attendee, readAttendeesFS (FileState.ok rows) = Except.ok rows) ∧
    (scanlogGETFS FileState.missing = Except.error () ∧
      scanlogGETFS FileState.corrupt = Except.error ()) ∧
    (∀ aid an ae m : Str, ∀ now : Nat, ∀ rows : List ScanLogEntry,
      scanlogPOSTFS aid an ae m now (FileState.ok rows) false =
        (Except.error (), FileState.ok rows)) ∧
    (∀ aid an ae m : Str, ∀ now : Nat, ∀ wOk : Bool,
      scanlogPOSTFS aid an ae m now FileState.missing wOk =
        (Except.error (), FileState.missing) ∧
      scanlogPOSTFS aid an ae m now FileState.corrupt wOk =
        (Except.error (), FileState.corrupt)) :=
  ⟨⟨rfl, rfl, fun _ => rfl⟩, ⟨rfl, rfl, fun _ => rfl⟩, ⟨rfl, rfl, fun _ => rfl⟩,
    ⟨rfl, rfl⟩, fun _ _ _ _ _ _ => rfl, fun _ _ _ _ _ _ => ⟨rfl, rfl⟩⟩

/-- C6: the CSV export over an n-entry scan log is the fixed header line
followed by exactly n data rows joined by newlines; each data row is the
five fields in order, every field wrapped in double quotes, and the number
of quote characters in a rendered field is exactly two plus twice the
quotes of the value (every internal quote is doubled). -/
theorem C6_csv_format (logs : List ScanLogEntry) :
    scanlogCSV logs = List.intercalate ("\n".toList) (csvHeader :: logs.map csvRow) ∧
    (csvLines logs).length = logs.length + 1 ∧
    (csvLines logs).head? = some csvHeader ∧
    (csvLines logs).tail = logs.map csvRow ∧
    (∀ e : ScanLogEntry, csvRow e = List.intercalate (",".toList)
      [csvField (natToStr e.id), csvField e.attendeeId, csvField e.attendeeName,
        csvField e.attendeeEmail, csvField (natToStr e.timestamp)]) ∧
    (∀ v : Str, csvField v = '"' :: csvEscape v ++ ['"']) ∧
    (∀ v : Str, (csvField v).count '"' = 2 + 2 * v.count '"') := by
  refine ⟨rfl, by simp [csvLines], rfl, rfl, fun e => rfl, fun v => rfl, ?_⟩
  intro v
  have hstep : ∀ (c : Char) (cs : Str),
      csvEscape (c :: cs) = (if c = '"' then ['"', '"'] else [c]) ++ csvEscape cs :=
    fun c cs => rfl
  have hesc : (csvEscape v).count '"' = 2 * v.count '"' := by
    induction v with
    | nil => rfl
    | cons c cs ih =>
      by_cases hc : c = '"'
      · simp [hstep, hc, List.count_append, List.count_cons, ih]
        omega
      · simp [hstep, hc, List.count_append, List.count_cons, ih]
  show ('"' :: csvEscape v ++ ['"']).count '"' = 2 + 2 * v.count '"'
  simp [List.count_append, List.count_cons, hesc]
  omega

/-- C4 counterexample: Date.now() has millisecond resolution, so two valid
registrations with distinct emails can observe the same clock value; each
then mints the id String(now), making the two ids equal, so uniqueness of
ids fails without an assumption that the clock advances between
registrations. -/
theorem C4_counterexample :
    ¬ (∀ (rs : List RegReq) (s0 : Sys), s0.attendees = [] →
        (∀ r ∈ rs, r.firstName ≠ [] ∧ r.lastName ≠ [] ∧ r.email ≠ []) →
        (rs.map (fun r => normalizeEmail r.email)).Nodup →
        ((runRegs s0 rs).2.attendees.map (fun a => a.id)).Nodup) := by
  intro h
  have h0 := h
    [{ firstName := "A".toList, lastName := "B".toList, email := "a@x.com".toList,
        company := [], now := 0 },
      { firstName := "C".toList, lastName := "D".toList, email := "b@x.com".toList,
        company := [], now := 0 }]
    wSys0 rfl (by decide) (by decide)
  exact absurd h0 (by decide)

theorem runRegs_spec (rs : List RegReq) : ∀ s : Sys,
    (∀ r ∈ rs, r.firstName ≠ [] ∧ r.lastName ≠ [] ∧ r.email ≠ []) →
    (∀ r ∈ rs, ∀ a ∈ s.attendees, normalizeEmail a.email ≠ normalizeEmail r.email) →
    (rs.map (fun r => normalizeEmail r.email)).Nodup →
    (runRegs s rs).1 =
      rs.map (fun r => RegisterResult.created (regAttendee r) (hemTag ++ natToStr r.now)) ∧
    (runRegs s rs).2.attendees = s.attendees ++ rs.map regAttendee ∧
    (runRegs s rs).2.scanlogs = s.scanlogs ∧
    (runRegs s rs).2.leads = s.leads ∧
    (runRegs s rs).2.tokens = s.tokens := by
  induction rs with
  | nil =>
    intro s _ _ _
    exact ⟨rfl, by simp [runRegs], rfl, rfl, rfl⟩
  | cons r rs ih =>
    intro s hv hfresh hd
    have hvr := hv r (List.mem_cons_self r rs)
    have hfind : s.attendees.find?
        (fun a => normalizeEmail a.email == normalizeEmail r.email) = none := by
      rw [List.find?_eq_none]
      intro a ha
      simp [hfresh r (List.mem_cons_self r rs) a ha]
    have hstep : registerPOST r.firstName r.lastName r.email r.company r.now s =
        (RegisterResult.created (regAttendee r) (hemTag ++ natToStr r.now),
          { s with attendees := s.attendees ++ [regAttendee r] }) := by
      simp only [registerPOST, isEmpty_false_of_ne_nil hvr.1, isEmpty_false_of_ne_nil hvr.2.1,
        isEmpty_false_of_ne_nil hvr.2.2, Bool.or_self, Bool.or_false, Bool.false_eq_true,
        if_false, hfind]
      rfl
    have hv2 : ∀ r2 ∈ rs, r2.firstName ≠ [] ∧ r2.lastName ≠ [] ∧ r2.email ≠ [] :=
      fun r2 hr2 => hv r2 (List.mem_cons_of_mem r hr2)
    have hd2 : (rs.map (fun r2 => normalizeEmail r2.email)).Nodup :=
      (List.nodup_cons.mp hd).2
    have hfresh2 : ∀ r2 ∈ rs,
        ∀ a ∈ ({ s with attendees := s.attendees ++ [regAttendee r] } : Sys).attendees,
          normalizeEmail a.email ≠ normalizeEmail r2.email := by
      intro r2 hr2 a ha
      have ha2 : a ∈ s.attendees ++ [regAttendee r] := ha
      rcases List.mem_append.mp ha2 with hmem | hmem
      · exact hfresh r2 (List.mem_cons_of_mem r hr2) a hmem
      · rw [List.mem_singleton] at hmem
        subst hmem
        show normalizeEmail (normalizeEmail r.email) ≠ normalizeEmail r2.email
        rw [normalizeEmail_idem]
        intro e
        exact (List.nodup_cons.mp hd).1 (List.mem_map.mpr ⟨r2, hr2, e.symm⟩)
    obtain ⟨ih1, ih2, ih3, ih4, ih5⟩ :=
      ih { s with attendees := s.attendees ++ [regAttendee r] } hv2 hfresh2 hd2
    have hc1 : (runRegs s (r :: rs)).1 =
        (registerPOST r.firstName r.lastName r.email r.company r.now s).1 ::
          (runRegs (registerPOST r.firstName r.lastName r.email r.company r.now s).2 rs).1 :=
      rfl
    have hc2 : (runRegs s (r :: rs)).2 =
        (runRegs (registerPOST r.firstName r.lastName r.email r.company r.now s).2 rs).2 :=
      rfl
    refine ⟨?_, ?_, ?_, ?_, ?_⟩
    · rw [hc1, hstep]
      show RegisterResult.created (regAttendee r) (hemTag ++ natToStr r.now) ::
          (runRegs { s with attendees := s.attendees ++ [regAttendee r] } rs).1 = _
      rw [ih1, List.map_cons]
    · rw [hc2, hstep]
      show (runRegs { s with attendees := s.attendees ++ [regAttendee r] } rs).2.attendees = _
      rw [ih2]
      simp [List.append_assoc]
    · rw [hc2, hstep]
      exact ih3
    · rw [hc2, hstep]
      exact ih4
    · rw [hc2, hstep]
      exact ih5

/-- C4 (amended): for every sequence of valid registrations with pairwise
distinct (normalised) emails served from an empty store, provided the
clock strictly increases across the sequence (successive Date.now()
readings are distinct - without this, same-millisecond registrations mint
equal ids), every request returns 201 with qrValue = "hemisphere:" + id,
the store grows by exactly one row per request, and the minted ids are
pairwise distinct. -/
theorem C4_register_sequence (rs : List RegReq) (s0 : Sys)
    (h0 : s0.attendees = [])
    (hv : ∀ r ∈ rs, r.firstName ≠ [] ∧ r.lastName ≠ [] ∧ r.email ≠ [])
    (hd : (rs.map (fun r => normalizeEmail r.email)).Nodup)
    (ht : (rs.map RegReq.now).Pairwise (fun x y => x < y)) :
    (runRegs s0 rs).1 =
      rs.map (fun r => RegisterResult.created (regAttendee r) (hemTag ++ natToStr r.now)) ∧
    (runRegs s0 rs).2.attendees.length = rs.length ∧
    ((runRegs s0 rs).2.attendees.map (fun a => a.id)).Nodup ∧
    (∀ r ∈ rs, (regAttendee r).id = natToStr r.now) := by
  obtain ⟨h1, h2, _, _, _⟩ := runRegs_spec rs s0 hv (by rw [h0]; simp) hd
  refine ⟨h1, ?_, ?_, fun r _ => rfl⟩
  · rw [h2, h0]
    simp
  · rw [h2, h0, List.nil_append, List.map_map]
    have hcomp : ((fun a => a.id) ∘ regAttendee) = fun r => natToStr r.now := rfl
    rw [hcomp]
    have hmap : rs.map (fun r => natToStr r.now) = (rs.map RegReq.now).map natToStr := by
      rw [List.map_map]
      rfl
    rw [hmap]
    have hinj : Function.Injective natToStr := fun a b hab => natToStr_injective hab
    have hnodup : (rs.map RegReq.now).Nodup :=
      ht.imp (fun hlt => Nat.ne_of_lt hlt)
    exact hnodup.map hinj

/-- Witness for C4 (amended): two registrations at clocks 1 and 2 with
distinct emails grow the empty store to two rows with distinct ids. -/
theorem C4_register_sequence_witness :
    (([wReq1, wReq2].map (fun r => normalizeEmail r.email)).Nodup ∧
      ([wReq1, wReq2].map RegReq.now).Pairwise (fun x y => x < y)) ∧
    (runRegs wSys0 [wReq1, wReq2]).2.attendees.length = 2 ∧
    ((runRegs wSys0 [wReq1, wReq2]).2.attendees.map (fun a => a.id)).Nodup := by
  refine ⟨⟨by decide, by decide⟩, ?_, ?_⟩
  · exact (C4_register_sequence [wReq1, wReq2] wSys0 rfl (by decide) (by decide)
      (by decide)).2.1
  · exact (C4_register_sequence [wReq1, wReq2] wSys0 rfl (by decide) (by decide)
      (by decide)).2.2.1
